import Mathlib

/-!
Verification of the fan-out delivery pipeline of the link-replacer
repository (`forward_mode.py`, `scheduled_tasks.py`, `message_handler.py`).

Each Python function relevant to the checked properties is embedded as an
executable Lean definition:

* message data and formatting entities (Telegram `MessageEntity` fields
  used by the code: `type`, `offset`, `length`, `url`);
* `ForwardMode._process_message_links` — deep-link rewriting;
* `ForwardMode._send_with_retry` — retry/backoff engine, modelled over an
  explicit finite trace of transport outcomes;
* `ForwardMode._process_single_message` / `_process_media_group_messages`
  — the fan-out task builder;
* `ForwardMode._add_task_to_channel_queue` / `_queue_worker` — the
  per-destination dispatch queue;
* `ForwardMode._update_task_completion` — the completion tracker;
* `ScheduledTaskManager._execute_task` / `update_task_status` — the
  scheduler's per-job state machine;
* `ForwardMode._process_media_group_delayed` — the media-group debounce
  flush (sequential, cooperative semantics).
-/

namespace LinkReplacer

/-! ## Message data model -/

/-- A Telegram formatting entity as used by `_process_message_links`:
the code reads `entity.type`, `entity.offset`, `entity.length`,
`entity.url` and builds new entities from exactly these four fields. -/
structure MsgEntity where
  etype : String
  offset : Nat
  length : Nat
  url : Option String
deriving DecidableEq, Repr

/-- The slice of a Telegram `Message` that the embedded functions read:
`message_id`, `text`, `caption`, `entities`, `caption_entities`.
`none` stands for Python `None`. -/
structure FwdMessage where
  messageId : Nat
  text : Option String
  caption : Option String
  entities : List MsgEntity
  captionEntities : List MsgEntity
deriving DecidableEq, Repr

/-- Python truthiness for an optional string: `None` and `""` are falsy. -/
def strTruthy : Option String → Option String
  | none => none
  | some s => if s = "" then none else some s

/-- `message.text or message.caption or ""` (Python `or` chain). -/
def msgText (m : FwdMessage) : String :=
  ((strTruthy m.text).orElse fun _ => strTruthy m.caption).getD ""

/-- `message.entities or message.caption_entities or []`
(a Python list is falsy iff empty). -/
def msgEntities (m : FwdMessage) : List MsgEntity :=
  if m.entities = [] then m.captionEntities else m.entities

/-- `msg.text or msg.caption` used as a boolean (the text-message search in
the media-group handlers). -/
def hasText (m : FwdMessage) : Bool :=
  ((strTruthy m.text).orElse fun _ => strTruthy m.caption).isSome

/-- A destination chat id as the send functions produce it: the channel
string itself when it starts with `@`, otherwise `int(channel)`. -/
inductive ChatRef where
  | handle (s : String)
  | numeric (i : Int)
deriving DecidableEq, Repr

/-! ## Link rewriter (`_process_message_links`) -/

/-- The literal prefix of the recognized deep-link pattern
`https://t.me/c/(\d+)/(\d+)`. -/
def deepLinkPrefix : List Char := "https://t.me/c/".toList

/-- Greedy `\d+`-style scan: longest digit prefix and the remainder. -/
def takeDigits : List Char → List Char × List Char
  | [] => ([], [])
  | c :: cs =>
    if c.isDigit then
      let p := takeDigits cs
      (c :: p.1, p.2)
    else ([], c :: cs)

/-- `re.match(r'https://t\.me/c/(\d+)/(\d+)', url)` on the character list:
Python `re.match` anchors at the start only, so any remainder after the
second digit group is accepted and ignored.  Returns the two captured
groups on success. -/
def matchDeepLinkChars (cs : List Char) : Option (List Char × List Char) :=
  if deepLinkPrefix.isPrefixOf cs then
    let rest := cs.drop deepLinkPrefix.length
    let p1 := takeDigits rest
    if p1.1 = [] then none
    else
      match p1.2 with
      | [] => none
      | c :: r2 =>
        if c = '/' then
          let p2 := takeDigits r2
          if p2.1 = [] then none else some (p1.1, p2.1)
        else none
  else none

/-- String-level wrapper of the regex match. -/
def matchDeepLink (u : String) : Option (String × String) :=
  (matchDeepLinkChars u.toList).map fun p => (p.1.asString, p.2.asString)

/-- `str(target_chat_id)` followed by the `-100` prefix strip performed by
`_process_message_links` (`startswith('-100')` / `[4:]`, character
slicing done on the character list). -/
def canonicalChannelId (i : Int) : String :=
  let s := (toString i).toList
  if ("-100".toList).isPrefixOf s then (s.drop 4).asString else s.asString

/-- The per-entity step of `_process_message_links`: a `text_link` entity
with a truthy `url` that matches the pattern is rebuilt with the rewritten
link; every other entity is kept as is. -/
def rewriteEntity (newChannelId : String) (e : MsgEntity) : MsgEntity :=
  if e.etype = "text_link" ∧ (strTruthy e.url).isSome then
    match matchDeepLink ((strTruthy e.url).getD "") with
    | some (_, messageId) =>
      { etype := e.etype, offset := e.offset, length := e.length,
        url := some ("https://t.me/c/" ++ newChannelId ++ "/" ++ messageId) }
    | none => e
  else e

/-- `ForwardMode._process_message_links(message, target_chat_id)`
(forward_mode.py lines 1212–1251). -/
def processMessageLinks (m : FwdMessage) (target : ChatRef) :
    String × List MsgEntity :=
  let text := msgText m
  let originalEntities := msgEntities m
  match target with
  | .handle _ => (text, originalEntities)
  | .numeric i =>
    let newChannelId := canonicalChannelId i
    (text, originalEntities.map (rewriteEntity newChannelId))

/-- The full deep-link shape `https://t.me/c/<digits>/<digits>` as the
spec words it: the whole URL consists of the prefix, a non-empty digit
run, `/`, and a non-empty digit run — nothing after it. -/
def isFullDeepLink (u : String) : Prop :=
  ∃ ch mid : List Char, ch ≠ [] ∧ mid ≠ [] ∧
    (∀ c ∈ ch, c.isDigit) ∧ (∀ c ∈ mid, c.isDigit) ∧
    u.toList = deepLinkPrefix ++ ch ++ '/' :: mid

/-- The URL begins with the deep-link shape (an arbitrary remainder may
follow the second digit run) — this is what `re.match` actually
accepts. -/
def beginsWithDeepLink (u : String) : Prop :=
  ∃ ch mid rest : List Char, ch ≠ [] ∧ mid ≠ [] ∧
    (∀ c ∈ ch, c.isDigit) ∧ (∀ c ∈ mid, c.isDigit) ∧
    u.toList = deepLinkPrefix ++ ch ++ '/' :: (mid ++ rest)

/-- Decimal digits to a natural number (for the `int(channel)` model). -/
def digitsToNat (ds : List Char) : Nat :=
  ds.foldl (fun a c => a * 10 + (c.toNat - '0'.toNat)) 0

/-- Python `int(s)` on an optionally-signed decimal string — the only
shapes configured channel ids take; anything else raises `ValueError`,
modelled as `none`. -/
def strToInt? (s : String) : Option Int :=
  match s.toList with
  | [] => none
  | '-' :: ds =>
    if ds ≠ [] ∧ ds.all Char.isDigit then some (-(digitsToNat ds : Int))
    else none
  | ds => if ds.all Char.isDigit then some (digitsToNat ds : Int) else none

/-- The chat-id parsing `channel if channel.startswith('@') else
int(channel)` shared by the send functions; `none` models an
unparsable numeric channel string (Python `int` raising). -/
def parseChannel (channel : String) : Option ChatRef :=
  if ("@".toList).isPrefixOf channel.toList then some (.handle channel)
  else (strToInt? channel).map .numeric

/-- The keyword arguments `_send_text_message_direct` passes to
`bot.send_message` (forward_mode.py lines 1079–1096). -/
structure SendMessageParams where
  chatId : ChatRef
  text : String
  entities : List MsgEntity
  disableWebPagePreview : Bool
deriving DecidableEq, Repr

/-- `ForwardMode._send_text_message_direct(message, chat_id, context)`:
applies `_process_message_links` to the dequeued payload and builds the
send parameters — this is where destination-specific rewriting
happens. -/
def sendTextMessageDirect (m : FwdMessage) (chatId : ChatRef) :
    SendMessageParams :=
  let processed := processMessageLinks m chatId
  ⟨chatId, processed.1, processed.2, false⟩

/-! ## Retry engine (`_send_with_retry`) -/

/-- One outcome of calling the transport: a successful result or one of
the exception classes the engine distinguishes (`RetryAfter`, `TimedOut`,
`NetworkError`, and the final generic `except Exception` branch, which is
the one that receives permission errors and any other exception). -/
inductive SendOutcome where
  | success (r : Nat)
  | rateLimited (retryAfter : Nat)
  | timedOut
  | networkErr
  | otherErr (name : String)
deriving DecidableEq, Repr

/-- Whether an outcome is the rate-limited failure class. -/
def SendOutcome.isRateLimited : SendOutcome → Bool
  | .rateLimited _ => true
  | _ => false

/-- Whether an outcome is a failure of an attempt-consuming class
(timeout, network error, or the generic branch). -/
def SendOutcome.isConsumingFailure : SendOutcome → Bool
  | .timedOut => true
  | .networkErr => true
  | .otherErr _ => true
  | _ => false

/-- How a run of `_send_with_retry` ends: a returned result, a re-raised
exception, or falling out of the model (`fellThrough` for the
`while`-guard being false, `traceExhausted` when the engine would call
the transport again but the supplied finite trace has no more
outcomes). -/
inductive SendResult where
  | ok (r : Nat)
  | raised (e : SendOutcome)
  | fellThrough
  | traceExhausted
deriving DecidableEq, Repr

/-- Observable record of one run: final result, number of transport
calls, the sleeps performed (in seconds, exact rationals), and the final
value of the `attempt` counter. -/
structure RetryRun where
  result : SendResult
  calls : Nat
  sleeps : List ℚ
  finalAttempt : Nat
deriving DecidableEq, Repr

/-- `ForwardMode._send_with_retry` (forward_mode.py lines 1253–1304),
run against a finite trace of transport outcomes: the `n`-th transport
call returns/raises the `n`-th trace element.  Recursion is on the trace;
the Python loop state is the `attempt` counter.

* success: return the result;
* `RetryAfter e`: sleep `e.retry_after + 1`, do not touch `attempt`;
* `TimedOut`: `attempt += 1`; below the budget sleep
  `base_delay * 2^min(attempt-1, 4)` and continue, else re-raise;
* `NetworkError`: `attempt += 1`; below the budget sleep
  `base_delay * 1.5^(attempt-1)` and continue, else re-raise;
* any other exception: `attempt += 1`; below the budget sleep
  `base_delay * 2` and continue, else re-raise. -/
def sendWithRetryAux (maxRetries : Nat) (baseDelay : ℚ) :
    List SendOutcome → Nat → RetryRun
  | trace, attempt =>
    if attempt < maxRetries then
      match trace with
      | [] => ⟨.traceExhausted, 0, [], attempt⟩
      | o :: rest =>
        match o with
        | .success r => ⟨.ok r, 1, [], attempt⟩
        | .rateLimited w =>
          let t := sendWithRetryAux maxRetries baseDelay rest attempt
          ⟨t.result, t.calls + 1, ((w : ℚ) + 1) :: t.sleeps, t.finalAttempt⟩
        | .timedOut =>
          let a := attempt + 1
          if a < maxRetries then
            let t := sendWithRetryAux maxRetries baseDelay rest a
            ⟨t.result, t.calls + 1,
              (baseDelay * 2 ^ (min (a - 1) 4)) :: t.sleeps, t.finalAttempt⟩
          else ⟨.raised .timedOut, 1, [], a⟩
        | .networkErr =>
          let a := attempt + 1
          if a < maxRetries then
            let t := sendWithRetryAux maxRetries baseDelay rest a
            ⟨t.result, t.calls + 1,
              (baseDelay * (3 / 2) ^ (a - 1)) :: t.sleeps, t.finalAttempt⟩
          else ⟨.raised .networkErr, 1, [], a⟩
        | .otherErr e =>
          let a := attempt + 1
          if a < maxRetries then
            let t := sendWithRetryAux maxRetries baseDelay rest a
            ⟨t.result, t.calls + 1, (baseDelay * 2) :: t.sleeps, t.finalAttempt⟩
          else ⟨.raised (.otherErr e), 1, [], a⟩
    else ⟨.fellThrough, 0, [], attempt⟩

/-- Entry point: `attempt = 0`, with the source defaults
`max_retries=10`, `base_delay=2` supplied by callers explicitly here. -/
def sendWithRetry (maxRetries : Nat) (baseDelay : ℚ)
    (trace : List SendOutcome) : RetryRun :=
  sendWithRetryAux maxRetries baseDelay trace 0

/-! ## Fan-out task builder
(`_process_single_message`, `_process_media_group_messages`) -/

/-- The payload stored in a queued task dict: the original `Message`
object (`'message': message`) or the original list of media-group
messages (`'messages': messages`). -/
inductive TaskPayload where
  | singleMessage (m : FwdMessage)
  | mediaGroup (ms : List FwdMessage)
deriving DecidableEq, Repr

/-- A task dict as built by the fan-out step: `type` is determined by the
payload constructor; `channel` and `task_group_id` are the other fields
the worker reads. -/
structure QTask where
  channel : String
  payload : TaskPayload
  taskGroupId : String
deriving DecidableEq, Repr

/-- One `pending_notifications` entry (the completion tracker):
`{'message': …, 'total_channels': …, 'completed_channels': …,
'message_type': …}`; the reply target message is kept as its id. -/
structure PendingNotification where
  replyTo : Nat
  totalChannels : Nat
  completedChannels : Nat
  messageType : String
deriving DecidableEq, Repr

/-- `ForwardMode._process_single_message(message, context)`
(forward_mode.py lines 919–958): with no configured channels it logs and
returns having created nothing (modelled as `none`); otherwise it
registers one tracker under `msg_<message_id>` and builds one task per
channel, all carrying that group id. -/
def processSingleMessage (targetChannels : List String) (m : FwdMessage) :
    Option (List QTask × String × PendingNotification) :=
  if targetChannels = [] then none
  else
    let taskGroupId := "msg_" ++ toString m.messageId
    let notification : PendingNotification :=
      ⟨m.messageId, targetChannels.length, 0, "single"⟩
    let tasks := targetChannels.map fun channel =>
      (⟨channel, .singleMessage m, taskGroupId⟩ : QTask)
    some (tasks, taskGroupId, notification)

/-- `ForwardMode._process_media_group_messages(messages, context)`
(forward_mode.py lines 780–825): with no configured channels it logs and
returns having created nothing; the tracker is registered only when some
fragment carries text (`if text_message:`), while the tasks are built for
every channel regardless.  An empty fragment list raises `IndexError` at
`messages[0]` before anything is created (modelled as `none`). -/
def processMediaGroupMessages (targetChannels : List String)
    (ms : List FwdMessage) :
    Option (List QTask × Option (String × PendingNotification)) :=
  if targetChannels = [] then none
  else
    match ms with
    | [] => none
    | m0 :: _ =>
      let textMessage := ms.find? hasText
      let taskGroupId := "mediagroup_" ++ toString m0.messageId
      let tracker := textMessage.map fun tm =>
        (taskGroupId,
          (⟨tm.messageId, targetChannels.length, 0, "media_group"⟩ :
            PendingNotification))
      let tasks := targetChannels.map fun channel =>
        (⟨channel, .mediaGroup ms, taskGroupId⟩ : QTask)
      some (tasks, tracker)

/-! ## Association-list helpers for the Python dicts

`channel_queues`, `pending_notifications`, `media_group_buffer` are
Python dicts; insertion order is observable (`next(iter(...))`), so they
are embedded as association lists in insertion order with unique keys. -/

/-- `d[k]` lookup (`None` when the key is absent). -/
def alLookup {α : Type} (qs : List (String × α)) (k : String) : Option α :=
  (qs.find? fun p => p.1 = k).map Prod.snd

/-- `k in d`. -/
def alMem {α : Type} (qs : List (String × α)) (k : String) : Bool :=
  (alLookup qs k).isSome

/-- `d[k] = v` on a key that may or may not be present: updates the
binding in place, appends at the end when absent (dict insertion
order). -/
def alSet {α : Type} : List (String × α) → String → α → List (String × α)
  | [], k, v => [(k, v)]
  | (k', v') :: rest, k, v =>
    if k' = k then (k', v) :: rest else (k', v') :: alSet rest k v

/-- `del d[k]` (no-op when absent; removes the unique binding). -/
def alErase {α : Type} (qs : List (String × α)) (k : String) :
    List (String × α) :=
  qs.filter fun p => ¬(p.1 = k)

/-! ## Per-destination dispatch queue
(`_add_task_to_channel_queue`, `_queue_worker`) -/

/-- The queue map and current-channel pointer of `ForwardMode`. -/
structure DispatchState where
  channelQueues : List (String × List QTask)
  currentChannel : Option String
deriving DecidableEq, Repr

/-- `ForwardMode._add_task_to_channel_queue(channel, task)`
(forward_mode.py lines 960–967): create the list if absent, then
`append` the task at its tail. -/
def addTaskToChannelQueue (s : DispatchState) (channel : String)
    (task : QTask) : DispatchState :=
  let existing := (alLookup s.channelQueues channel).getD []
  { s with channelQueues := alSet s.channelQueues channel (existing ++ [task]) }

/-- Lines 100–119 of the worker body, once the current channel has been
chosen: pop-and-execute the head when the current list is non-empty,
otherwise delete the exhausted key and switch to the first remaining
key (or go idle). -/
def popCurrent (qs : List (String × List QTask)) (current : String) :
    DispatchState × Option (String × QTask) :=
  match alLookup qs current with
  | some (t :: ts) =>
    (⟨alSet qs current ts, some current⟩, some (current, t))
  | _ =>
    let qs' := alErase qs current
    match qs' with
    | [] => (⟨[], none⟩, none)
    | (k', _) :: _ => (⟨qs', some k'⟩, none)

/-- One iteration of the `while` body of `ForwardMode._queue_worker`
(forward_mode.py lines 82–130), with the executed task (if any) returned
together with the channel it was popped from:

1. empty queue map: idle sleep, no change;
2. unset/stale `current_channel`: select the first key;
3. non-empty current list: `pop(0)` and execute the head;
4. empty current list: delete the key and switch to the first remaining
   key, or go idle. -/
def queueWorkerStep (s : DispatchState) :
    DispatchState × Option (String × QTask) :=
  match s.channelQueues with
  | [] => (s, none)
  | (k0, _) :: _ =>
    popCurrent s.channelQueues
      (match s.currentChannel with
       | none => k0
       | some c => if alMem s.channelQueues c then c else k0)

/-- Interleaved history of enqueues and worker iterations. -/
inductive QEvent where
  | enq (channel : String) (task : QTask)
  | work
deriving DecidableEq, Repr

/-- Run a history of events from a state, collecting executed tasks in
execution order. -/
def runQueueEvents (s : DispatchState) :
    List QEvent → DispatchState × List (String × QTask)
  | [] => (s, [])
  | .enq c t :: es =>
    runQueueEvents (addTaskToChannelQueue s c t) es
  | .work :: es =>
    let p := queueWorkerStep s
    let r := runQueueEvents p.1 es
    match p.2 with
    | some e => (r.1, e :: r.2)
    | none => r

/-- The tasks a history enqueues to one destination, in order. -/
def enqueuedFor (c : String) (es : List QEvent) : List QTask :=
  es.filterMap fun e =>
    match e with
    | .enq c' t => if c' = c then some t else none
    | .work => none

/-- The tasks a run executed from one destination's queue, in order. -/
def executedFor (c : String) (ex : List (String × QTask)) : List QTask :=
  ex.filterMap fun p => if p.1 = c then some p.2 else none

/-- The tasks still pending for one destination. -/
def pendingFor (c : String) (s : DispatchState) : List QTask :=
  (alLookup s.channelQueues c).getD []

/-! ## Completion tracker (`_update_task_completion`) -/

/-- The success path of `ForwardMode._execute_task` followed by
`_update_task_completion` (forward_mode.py lines 157–158 and 164–188):
the caller no-ops unless the group id is a key of
`pending_notifications`; the tracker's completed count is incremented,
and on reaching the total one aggregated confirmation is sent (second
component `1`) and the entry deleted. -/
def onTaskSuccess (m : List (String × PendingNotification))
    (taskGroupId : String) : List (String × PendingNotification) × Nat :=
  match alLookup m taskGroupId with
  | none => (m, 0)
  | some nt =>
    let nt' := { nt with completedChannels := nt.completedChannels + 1 }
    if nt'.completedChannels ≥ nt'.totalChannels then
      (alErase m taskGroupId, 1)
    else (alSet m taskGroupId nt', 0)

/-- `k` successive successful-task callbacks for one group id, with the
number of aggregated confirmations sent in total. -/
def runSuccesses (taskGroupId : String) :
    Nat → List (String × PendingNotification) →
    List (String × PendingNotification) × Nat
  | 0, m => (m, 0)
  | k + 1, m =>
    let p := onTaskSuccess m taskGroupId
    let r := runSuccesses taskGroupId k p.1
    (r.1, p.2 + r.2)

/-! ## Scheduler state machine
(`ScheduledTaskManager._execute_task`, `update_task_status`) -/

/-- The scheduler-visible fields of one stored job dict (created by
`add_task` with `status='pending'`, `attempts=0`, `max_attempts=3`). -/
structure SchedTask where
  status : String
  attempts : Nat
  maxAttempts : Nat
  scheduledTime : Int
deriving DecidableEq, Repr

/-- `ScheduledTaskManager.update_task_status` (scheduled_tasks.py lines
98–109): sets the status and increments the attempt counter. -/
def updateTaskStatus (t : SchedTask) (status : String) : SchedTask :=
  { t with status := status, attempts := t.attempts + 1 }

/-- `ScheduledTaskManager._execute_task` (scheduled_tasks.py lines
175–207) on one due job whose payload execution succeeds or fails
(`succeeds`): success marks the job completed; failure reschedules it
`now + 5` minutes later while `attempts < max_attempts`, otherwise marks
it failed. -/
def executeTaskOnce (now : Int) (succeeds : Bool) (t : SchedTask) :
    SchedTask :=
  if succeeds then updateTaskStatus t "completed"
  else if t.attempts < t.maxAttempts then
    { t with scheduledTime := now + 5 }
  else updateTaskStatus t "failed"

/-- A sequence of due executions of the same job with the given
outcomes. -/
def runScheduledJob (now : Int) : List Bool → SchedTask → SchedTask
  | [], t => t
  | b :: bs, t => runScheduledJob now bs (executeTaskOnce now b t)

/-- A job as `add_task` stores it (scheduled_tasks.py lines 55–73). -/
def freshSchedTask (scheduledTime : Int) : SchedTask :=
  ⟨"pending", 0, 3, scheduledTime⟩

/-! ## Media-group debounce flush (`_process_media_group_delayed`) -/

/-- The aggregator state of `ForwardMode`: the fragment buffer, the keys
holding a live timer handle, and the `_processing_groups` marker set. -/
structure MediaGroupState where
  buffer : List (String × List FwdMessage)
  timers : List String
  processing : List String
deriving DecidableEq, Repr

/-- The body of `ForwardMode._process_media_group_delayed` after the
debounce sleep (forward_mode.py lines 378–456, the later definition of
the twice-defined method, which is the one Python binds), in the
immediate (non-batch, unscheduled) mode, run atomically — the cooperative
scheduler cannot interleave another flush into this body because it
contains no suspending await on this path.  `containsTarget` is the
trigger-phrase predicate `_contains_target_text`.  The boolean result
records whether the group was emitted downstream
(`_process_media_group_messages` reached).  The `finally` block removes
the group id from the buffer, the timer map and the marker set on every
path. -/
def flushMediaGroup (containsTarget : FwdMessage → Bool)
    (s : MediaGroupState) (groupId : String) : MediaGroupState × Bool :=
  let emitted :=
    match alLookup s.buffer groupId with
    | none => false
    | some messages =>
      if groupId ∈ s.processing then false
      else
        match messages.find? hasText with
        | some textMessage => containsTarget textMessage
        | none => false
  (⟨alErase s.buffer groupId,
    s.timers.filter fun x => ¬(x = groupId),
    s.processing.filter fun x => ¬(x = groupId)⟩, emitted)

/-! ## Retry-engine lemmas -/

theorem sendAux_rateLimited_prefix (maxRetries : Nat) (baseDelay : ℚ)
    (ws : List Nat) (r : Nat) (attempt : Nat) (h : attempt < maxRetries) :
    sendWithRetryAux maxRetries baseDelay
        (ws.map SendOutcome.rateLimited ++ [SendOutcome.success r]) attempt =
      ⟨.ok r, ws.length + 1, ws.map (fun w => (w : ℚ) + 1), attempt⟩ := by
  induction ws with
  | nil => simp [sendWithRetryAux, h]
  | cons w ws ih => simp [sendWithRetryAux, h, ih]

theorem sendAux_consuming_success (maxRetries : Nat) (baseDelay : ℚ)
    (r : Nat) (rest : List SendOutcome) :
    ∀ (fails : List SendOutcome) (attempt : Nat),
      (∀ o ∈ fails, o.isConsumingFailure = true) →
      attempt + fails.length < maxRetries →
      (sendWithRetryAux maxRetries baseDelay
          (fails ++ SendOutcome.success r :: rest) attempt).result = .ok r ∧
      (sendWithRetryAux maxRetries baseDelay
          (fails ++ SendOutcome.success r :: rest) attempt).calls
        = fails.length + 1 := by
  intro fails
  induction fails with
  | nil =>
    intro attempt _ h
    simp only [List.length_nil, Nat.add_zero] at h
    simp [sendWithRetryAux, h]
  | cons o fs ih =>
    intro attempt hall h
    have ho : o.isConsumingFailure = true := hall o (by simp)
    have hfs : ∀ x ∈ fs, x.isConsumingFailure = true := by
      intro x hx; exact hall x (by simp [hx])
    have h1 : attempt < maxRetries := by omega
    have h2 : attempt + 1 + fs.length < maxRetries := by
      simp only [List.length_cons] at h; omega
    have h3 : attempt + 1 < maxRetries := by omega
    have := ih (attempt + 1) hfs h2
    cases o with
    | success r' => simp [SendOutcome.isConsumingFailure] at ho
    | rateLimited w => simp [SendOutcome.isConsumingFailure] at ho
    | timedOut =>
      simp only [List.cons_append] at this ⊢
      simp [sendWithRetryAux, h1, h3, this.1, this.2]
    | networkErr =>
      simp only [List.cons_append] at this ⊢
      simp [sendWithRetryAux, h1, h3, this.1, this.2]
    | otherErr e =>
      simp only [List.cons_append] at this ⊢
      simp [sendWithRetryAux, h1, h3, this.1, this.2]

theorem sendAux_consuming_raise (maxRetries : Nat) (baseDelay : ℚ) :
    ∀ (fails : List SendOutcome) (attempt : Nat),
      (∀ o ∈ fails, o.isConsumingFailure = true) →
      attempt < maxRetries →
      maxRetries ≤ attempt + fails.length →
      (sendWithRetryAux maxRetries baseDelay fails attempt).result
          = .raised (fails.getD (maxRetries - attempt - 1) .timedOut) ∧
      (sendWithRetryAux maxRetries baseDelay fails attempt).calls
          = maxRetries - attempt := by
  intro fails
  induction fails with
  | nil =>
    intro attempt _ h1 h2
    simp only [List.length_nil, Nat.add_zero] at h2
    omega
  | cons o fs ih =>
    intro attempt hall h1 h2
    have ho : o.isConsumingFailure = true := hall o (by simp)
    have hfs : ∀ x ∈ fs, x.isConsumingFailure = true := by
      intro x hx; exact hall x (by simp [hx])
    simp only [List.length_cons] at h2
    by_cases h3 : attempt + 1 < maxRetries
    · have hrec := ih (attempt + 1) hfs h3 (by omega)
      have hidx : maxRetries - attempt - 1 = (maxRetries - (attempt + 1) - 1) + 1 := by
        omega
      cases o with
      | success r' => simp [SendOutcome.isConsumingFailure] at ho
      | rateLimited w => simp [SendOutcome.isConsumingFailure] at ho
      | timedOut =>
        refine ⟨?_, ?_⟩
        · simp [sendWithRetryAux, h1, h3, hrec.1, hidx]
        · simp [sendWithRetryAux, h1, h3, hrec.2]; omega
      | networkErr =>
        refine ⟨?_, ?_⟩
        · simp [sendWithRetryAux, h1, h3, hrec.1, hidx]
        · simp [sendWithRetryAux, h1, h3, hrec.2]; omega
      | otherErr e =>
        refine ⟨?_, ?_⟩
        · simp [sendWithRetryAux, h1, h3, hrec.1, hidx]
        · simp [sendWithRetryAux, h1, h3, hrec.2]; omega
    · have hmax : maxRetries = attempt + 1 := by omega
      have hidx : maxRetries - attempt - 1 = 0 := by omega
      cases o with
      | success r' => simp [SendOutcome.isConsumingFailure] at ho
      | rateLimited w => simp [SendOutcome.isConsumingFailure] at ho
      | timedOut =>
        constructor
        · simp [sendWithRetryAux, h1, h3, hidx]
        · simp [sendWithRetryAux, h1, h3]; omega
      | networkErr =>
        constructor
        · simp [sendWithRetryAux, h1, h3, hidx]
        · simp [sendWithRetryAux, h1, h3]; omega
      | otherErr e =>
        constructor
        · simp [sendWithRetryAux, h1, h3, hidx]
        · simp [sendWithRetryAux, h1, h3]; omega

theorem sendAux_calls_le (maxRetries : Nat) (baseDelay : ℚ) :
    ∀ (trace : List SendOutcome) (attempt : Nat),
      (∀ o ∈ trace, o.isRateLimited = false) →
      (sendWithRetryAux maxRetries baseDelay trace attempt).calls
        ≤ maxRetries - attempt := by
  intro trace
  induction trace with
  | nil =>
    intro attempt _
    by_cases h : attempt < maxRetries <;> simp [sendWithRetryAux, h]
  | cons o os ih =>
    intro attempt hall
    have hos : ∀ x ∈ os, x.isRateLimited = false := by
      intro x hx; exact hall x (by simp [hx])
    by_cases h : attempt < maxRetries
    · cases o with
      | success r => simp [sendWithRetryAux, h]; omega
      | rateLimited w =>
        have := hall (.rateLimited w) (by simp)
        simp [SendOutcome.isRateLimited] at this
      | timedOut =>
        by_cases h3 : attempt + 1 < maxRetries
        · have := ih (attempt + 1) hos
          simp [sendWithRetryAux, h, h3]; omega
        · simp [sendWithRetryAux, h, h3]; omega
      | networkErr =>
        by_cases h3 : attempt + 1 < maxRetries
        · have := ih (attempt + 1) hos
          simp [sendWithRetryAux, h, h3]; omega
        · simp [sendWithRetryAux, h, h3]; omega
      | otherErr e =>
        by_cases h3 : attempt + 1 < maxRetries
        · have := ih (attempt + 1) hos
          simp [sendWithRetryAux, h, h3]; omega
        · simp [sendWithRetryAux, h, h3]; omega
    · simp [sendWithRetryAux, h]

theorem sendAux_otherErr_replicate (maxRetries : Nat) (baseDelay : ℚ)
    (e : String) :
    ∀ (k attempt : Nat), attempt < maxRetries → maxRetries ≤ attempt + k →
      sendWithRetryAux maxRetries baseDelay
          (List.replicate k (SendOutcome.otherErr e)) attempt =
        ⟨.raised (SendOutcome.otherErr e), maxRetries - attempt,
          List.replicate (maxRetries - attempt - 1) (baseDelay * 2),
          maxRetries⟩ := by
  intro k
  induction k with
  | zero => intro attempt h1 h2; omega
  | succ k ih =>
    intro attempt h1 h2
    by_cases h3 : attempt + 1 < maxRetries
    · have hrec := ih (attempt + 1) h3 (by omega)
      have hn : maxRetries - attempt - 1 = (maxRetries - (attempt + 1) - 1) + 1 := by
        omega
      have hc : maxRetries - attempt = (maxRetries - (attempt + 1)) + 1 := by
        omega
      simp [List.replicate_succ, sendWithRetryAux, h1, h3, hrec, hc]
      rw [show maxRetries - (attempt + 1)
            = (maxRetries - (attempt + 1) - 1) + 1 from by omega,
        List.replicate_succ]
      simp
    · have hmax : maxRetries = attempt + 1 := by omega
      have h0 : maxRetries - attempt - 1 = 0 := by omega
      have hc : maxRetries - attempt = 1 := by omega
      simp [List.replicate_succ, sendWithRetryAux, h1, h3, h0, hc, hmax]

/-- C2: if the transport raises a rate-limited failure (with mandatory
wait `w`) on every call before the `N`-th and succeeds on call `N`,
`_send_with_retry` sleeps exactly `w + 1` after each rate-limited
failure, never increments the `attempt` counter (final attempt stays 0),
and returns the success of call `N` (making `N` transport calls) for
every `max_retries ≥ 1`. -/
theorem rateLimited_retries_preserve_attempt_budget
    (maxRetries : Nat) (baseDelay : ℚ) (ws : List Nat) (r : Nat)
    (hm : 1 ≤ maxRetries) :
    sendWithRetry maxRetries baseDelay
        (ws.map SendOutcome.rateLimited ++ [SendOutcome.success r]) =
      ⟨.ok r, ws.length + 1, ws.map (fun w => (w : ℚ) + 1), 0⟩ :=
  sendAux_rateLimited_prefix maxRetries baseDelay ws r 0 hm

theorem rateLimited_retries_preserve_attempt_budget_witness :
    1 ≤ 1 ∧ sendWithRetry 1 2
        ([3, 5].map SendOutcome.rateLimited ++ [SendOutcome.success 7]) =
      ⟨.ok 7, [3, 5].length + 1, [3, 5].map (fun w => (w : ℚ) + 1), 0⟩ :=
  ⟨by decide, rateLimited_retries_preserve_attempt_budget 1 2 [3, 5] 7 (by decide)⟩

/-- C10 (implicit): with only attempt-consuming failure classes in the
trace, `_send_with_retry` makes at most `max_retries` transport calls and
terminates; a trace of consuming failures followed by a success within
the budget returns that first success, and a trace of at least
`max_retries` consuming failures re-raises the failure of the final
(`max_retries`-th) attempt. -/
theorem retry_engine_terminates_within_budget
    (maxRetries : Nat) (baseDelay : ℚ) (hm : 1 ≤ maxRetries) :
    (∀ trace : List SendOutcome, (∀ o ∈ trace, o.isRateLimited = false) →
      (sendWithRetry maxRetries baseDelay trace).calls ≤ maxRetries) ∧
    (∀ (fails : List SendOutcome) (r : Nat) (rest : List SendOutcome),
      (∀ o ∈ fails, o.isConsumingFailure = true) →
      fails.length + 1 ≤ maxRetries →
      (sendWithRetry maxRetries baseDelay
          (fails ++ SendOutcome.success r :: rest)).result = .ok r ∧
      (sendWithRetry maxRetries baseDelay
          (fails ++ SendOutcome.success r :: rest)).calls
        = fails.length + 1) ∧
    (∀ fails : List SendOutcome,
      (∀ o ∈ fails, o.isConsumingFailure = true) →
      maxRetries ≤ fails.length →
      (sendWithRetry maxRetries baseDelay fails).result
          = .raised (fails.getD (maxRetries - 1) .timedOut) ∧
      (sendWithRetry maxRetries baseDelay fails).calls = maxRetries) := by
  refine ⟨?_, ?_, ?_⟩
  · intro trace h
    simpa [sendWithRetry] using
      sendAux_calls_le maxRetries baseDelay trace 0 h
  · intro fails r rest hf hlen
    exact sendAux_consuming_success maxRetries baseDelay r rest fails 0 hf
      (by omega)
  · intro fails hf hlen
    simpa [sendWithRetry] using
      sendAux_consuming_raise maxRetries baseDelay fails 0 hf (by omega)
        (by omega)

theorem retry_engine_terminates_within_budget_witness :
    (sendWithRetry 2 2 [SendOutcome.timedOut, SendOutcome.networkErr]).result
        = .raised ([SendOutcome.timedOut,
            SendOutcome.networkErr].getD (2 - 1) .timedOut) ∧
    (sendWithRetry 2 2 [SendOutcome.timedOut, SendOutcome.networkErr]).calls
        = 2 :=
  (retry_engine_terminates_within_budget 2 2 (by decide)).2.2
    [SendOutcome.timedOut, SendOutcome.networkErr] (by decide) (by decide)

/-- C8 (counterexample): the code has no unrecoverable class — a
permission error lands in the generic `except Exception` branch and is
retried.  With `max_retries = 10` and a transport that raises a
permission error on call 1 and succeeds on call 2, the engine makes a
second call (2 calls, not 1) and returns the success instead of
surfacing the failure immediately. -/
theorem unrecoverable_error_retried_counterexample :
    (sendWithRetry 10 2
        [SendOutcome.otherErr "Forbidden", SendOutcome.success 1]).calls
      = 2 ∧
    (sendWithRetry 10 2
        [SendOutcome.otherErr "Forbidden", SendOutcome.success 1]).result
      = .ok 1 ∧
    ¬ (sendWithRetry 10 2
        [SendOutcome.otherErr "Forbidden", SendOutcome.success 1]).calls
      = 1 :=
  ⟨rfl, by decide, by decide⟩

/-- C8 (amended): a permission (or any other unrecognized) error is
handled by the generic exception branch: each occurrence consumes one
attempt and is retried after a fixed sleep of `base_delay * 2`; only
after `max_retries` attempts are exhausted is the error re-raised to the
caller. -/
theorem permission_errors_amended_generic_retry
    (maxRetries : Nat) (baseDelay : ℚ) (e : String) (k : Nat)
    (hm : 1 ≤ maxRetries) (hk : maxRetries ≤ k) :
    sendWithRetry maxRetries baseDelay
        (List.replicate k (SendOutcome.otherErr e)) =
      ⟨.raised (SendOutcome.otherErr e), maxRetries,
        List.replicate (maxRetries - 1) (baseDelay * 2), maxRetries⟩ := by
  simpa [sendWithRetry] using
    sendAux_otherErr_replicate maxRetries baseDelay e k 0 hm (by omega)

theorem permission_errors_amended_generic_retry_witness :
    sendWithRetry 2 2 (List.replicate 2 (SendOutcome.otherErr "Forbidden")) =
      ⟨.raised (SendOutcome.otherErr "Forbidden"), 2,
        List.replicate (2 - 1) ((2 : ℚ) * 2), 2⟩ :=
  permission_errors_amended_generic_retry 2 2 "Forbidden" 2 (by decide)
    (by decide)

/-! ## Parser lemmas for the deep-link regex -/

theorem takeDigits_eq_append (l : List Char) :
    (takeDigits l).1 ++ (takeDigits l).2 = l := by
  induction l with
  | nil => rfl
  | cons c cs ih => by_cases h : c.isDigit <;> simp [takeDigits, h, ih]

theorem takeDigits_fst_digits (l : List Char) :
    ∀ c ∈ (takeDigits l).1, c.isDigit = true := by
  induction l with
  | nil => simp [takeDigits]
  | cons c cs ih =>
    by_cases h : c.isDigit
    · simpa [takeDigits, h] using ih
    · simp [takeDigits, h]

theorem takeDigits_snd_head (l : List Char) :
    ∀ c cs', (takeDigits l).2 = c :: cs' → c.isDigit = false := by
  induction l with
  | nil => simp [takeDigits]
  | cons c cs ih =>
    by_cases h : c.isDigit
    · simpa [takeDigits, h] using ih
    · intro c' cs' he
      simp [takeDigits, h] at he
      simp [← he.1, h]

theorem takeDigits_append (ds rest : List Char)
    (hd : ∀ c ∈ ds, c.isDigit = true)
    (hr : ∀ c cs', rest = c :: cs' → c.isDigit = false) :
    takeDigits (ds ++ rest) = (ds, rest) := by
  induction ds with
  | nil =>
    cases rest with
    | nil => rfl
    | cons c cs' => simp [takeDigits, hr c cs' rfl]
  | cons d ds ih =>
    have hd' : d.isDigit = true := hd d (by simp)
    simp [takeDigits, hd', ih (fun c hc => hd c (by simp [hc]))]

theorem matchDeepLinkChars_full (ch mid rest : List Char)
    (hch0 : ch ≠ []) (hmid0 : mid ≠ [])
    (hch : ∀ c ∈ ch, c.isDigit = true) (hmid : ∀ c ∈ mid, c.isDigit = true)
    (hr : ∀ c cs', rest = c :: cs' → c.isDigit = false) :
    matchDeepLinkChars (deepLinkPrefix ++ ch ++ '/' :: (mid ++ rest))
      = some (ch, mid) := by
  have hpre : deepLinkPrefix.isPrefixOf
      (deepLinkPrefix ++ ch ++ '/' :: (mid ++ rest)) = true := by
    rw [List.isPrefixOf_iff_prefix, List.append_assoc]
    exact List.prefix_append _ _
  have hdrop : (deepLinkPrefix ++ ch ++ '/' :: (mid ++ rest)).drop
      deepLinkPrefix.length = ch ++ '/' :: (mid ++ rest) := by
    rw [List.append_assoc]
    exact List.drop_left _ _
  have h1 : takeDigits (ch ++ '/' :: (mid ++ rest)) = (ch, '/' :: (mid ++ rest)) :=
    takeDigits_append ch _ hch (by intro c cs' he; injection he with h1 h2; simp [← h1])
  have h2 : takeDigits (mid ++ rest) = (mid, rest) :=
    takeDigits_append mid rest hmid hr
  unfold matchDeepLinkChars
  rw [if_pos hpre]
  simp only [hdrop, h1, h2]
  simp [hch0, hmid0]

theorem matchDeepLinkChars_sound (cs g1 g2 : List Char)
    (h : matchDeepLinkChars cs = some (g1, g2)) :
    ∃ rest, cs = deepLinkPrefix ++ g1 ++ '/' :: (g2 ++ rest) ∧
      g1 ≠ [] ∧ g2 ≠ [] ∧ (∀ c ∈ g1, c.isDigit = true) ∧
      (∀ c ∈ g2, c.isDigit = true) ∧
      (∀ c cs', rest = c :: cs' → c.isDigit = false) := by
  unfold matchDeepLinkChars at h
  by_cases hp : deepLinkPrefix.isPrefixOf cs
  · rw [if_pos hp] at h
    obtain ⟨t, ht⟩ := List.isPrefixOf_iff_prefix.1 hp
    have hdrop : cs.drop deepLinkPrefix.length = t := by
      rw [← ht]; exact List.drop_left _ _
    rw [hdrop] at h
    by_cases ha : (takeDigits t).1 = []
    · simp [ha] at h
    · rw [if_neg ha] at h
      rcases hb : (takeDigits t).2 with _ | ⟨y, b'⟩
      · rw [hb] at h; simp at h
      · rw [hb] at h
        dsimp only at h
        by_cases hy : y = '/'
        · rw [if_pos hy] at h
          by_cases ha2 : (takeDigits b').1 = []
          · simp [ha2] at h
          · rw [if_neg ha2] at h
            simp only [Option.some.injEq, Prod.mk.injEq] at h
            obtain ⟨rfl, rfl⟩ := h
            subst hy
            refine ⟨(takeDigits b').2, ?_, ha, ha2,
              takeDigits_fst_digits t, takeDigits_fst_digits b',
              takeDigits_snd_head b'⟩
            rw [← ht, List.append_assoc]
            congr 1
            conv_lhs => rw [← takeDigits_eq_append t]
            rw [hb]
            congr 1
            rw [takeDigits_eq_append b']
        · rw [if_neg hy] at h; exact absurd h (by simp)
  · rw [if_neg hp] at h; exact absurd h (by simp)

theorem takeDigits_digit_prefix (ds l : List Char)
    (hd : ∀ c ∈ ds, c.isDigit = true) :
    takeDigits (ds ++ l) = (ds ++ (takeDigits l).1, (takeDigits l).2) := by
  induction ds with
  | nil => simp
  | cons d ds ih =>
    have hd' : d.isDigit = true := hd d (by simp)
    simp [takeDigits, hd', ih (fun c hc => hd c (by simp [hc]))]

theorem matchDeepLink_isSome_iff (u : String) :
    (matchDeepLink u).isSome = true ↔ beginsWithDeepLink u := by
  constructor
  · intro h
    rw [matchDeepLink] at h
    rcases hm : matchDeepLinkChars u.toList with _ | ⟨g1, g2⟩
    · rw [hm] at h; simp at h
    · obtain ⟨rest, he, h1, h2, h3, h4, _⟩ :=
        matchDeepLinkChars_sound u.toList g1 g2 hm
      exact ⟨g1, g2, rest, h1, h2, h3, h4, he⟩
  · rintro ⟨ch, mid, rest, h1, h2, h3, h4, he⟩
    have hsplit : takeDigits (mid ++ rest)
        = (mid ++ (takeDigits rest).1, (takeDigits rest).2) :=
      takeDigits_digit_prefix mid rest h4
    have hfull := matchDeepLinkChars_full ch (mid ++ (takeDigits rest).1)
      (takeDigits rest).2 h1 (by simp [h2]) h3
      (by
        intro c hc
        rcases List.mem_append.1 hc with hc | hc
        · exact h4 c hc
        · exact takeDigits_fst_digits rest c hc)
      (takeDigits_snd_head rest)
    rw [matchDeepLink, he]
    have : mid ++ rest = (mid ++ (takeDigits rest).1) ++ (takeDigits rest).2 := by
      rw [List.append_assoc, takeDigits_eq_append]
    rw [this, hfull]
    rfl

theorem isFullDeepLink_parse (u : String) (h : isFullDeepLink u) :
    ∃ ch mid, matchDeepLinkChars u.toList = some (ch, mid) ∧
      u.toList = deepLinkPrefix ++ ch ++ '/' :: mid := by
  obtain ⟨ch, mid, h1, h2, h3, h4, h5⟩ := h
  refine ⟨ch, mid, ?_, h5⟩
  rw [h5]
  have := matchDeepLinkChars_full ch mid [] h1 h2 h3 h4 (by intro c cs' he; cases he)
  simpa using this

theorem rewriteEntity_of_not_match (nid : String) (e : MsgEntity)
    (h : e.etype ≠ "text_link" ∨ strTruthy e.url = none ∨
      ∀ u, strTruthy e.url = some u → ¬ beginsWithDeepLink u) :
    rewriteEntity nid e = e := by
  unfold rewriteEntity
  rcases h with h | h | h
  · rw [if_neg]; simp [h]
  · rw [if_neg]; simp [h]
  · by_cases h1 : e.etype = "text_link" ∧ (strTruthy e.url).isSome
    · rcases h2 : strTruthy e.url with _ | u
      · rw [h2] at h1; simp at h1
      · have hnone : matchDeepLink u = none := by
          rcases hmo : matchDeepLink u with _ | p
          · rfl
          · exact absurd ((matchDeepLink_isSome_iff u).1 (by simp [hmo]))
              (h u h2)
        have h1' : e.etype = "text_link" ∧ (Option.some u).isSome = true :=
          ⟨h1.1, rfl⟩
        rw [if_pos h1']
        simp [hnone]
    · rw [if_neg h1]

theorem rewriteEntity_of_match (nid : String) (e : MsgEntity) (u : String)
    (ch mid rest : List Char)
    (ht : e.etype = "text_link") (hu : strTruthy e.url = some u)
    (hch0 : ch ≠ []) (hmid0 : mid ≠ [])
    (hch : ∀ c ∈ ch, c.isDigit = true) (hmid : ∀ c ∈ mid, c.isDigit = true)
    (hrest : ∀ c cs', rest = c :: cs' → c.isDigit = false)
    (hdecomp : u.toList = deepLinkPrefix ++ ch ++ '/' :: (mid ++ rest)) :
    rewriteEntity nid e =
      ⟨e.etype, e.offset, e.length,
        some ("https://t.me/c/" ++ nid ++ "/" ++ mid.asString)⟩ := by
  have hmatch : matchDeepLink u = some (ch.asString, mid.asString) := by
    rw [matchDeepLink, hdecomp,
      matchDeepLinkChars_full ch mid rest hch0 hmid0 hch hmid hrest]
    rfl
  unfold rewriteEntity
  rw [hu]
  have h1' : e.etype = "text_link" ∧ (Option.some u).isSome = true := ⟨ht, rfl⟩
  rw [if_pos h1']
  simp [hmatch]

/-- C6 counterexample entity: a `text_link` whose URL merely begins with
the deep-link shape (`https://t.me/c/123/45/6` has a trailing `/6`). -/
def c6entity : MsgEntity := ⟨"text_link", 0, 1, some "https://t.me/c/123/45/6"⟩

/-- C6 counterexample message. -/
def c6msg : FwdMessage := ⟨1, some "x", none, [c6entity], []⟩

/-- C6 (counterexample): the URL `https://t.me/c/123/45/6` does not match
the full deep-link shape `https://t.me/c/<digits>/<digits>`, so by the
claim it should pass through unchanged; the code (whose `re.match` only
anchors at the start) rewrites it to `https://t.me/c/999/45`, dropping
the trailing `/6`. -/
theorem link_rewrite_nonmatching_counterexample :
    ¬ isFullDeepLink "https://t.me/c/123/45/6" ∧
    processMessageLinks c6msg (.numeric (-100999)) =
      ("x", [⟨"text_link", 0, 1, some "https://t.me/c/999/45"⟩]) ∧
    processMessageLinks c6msg (.numeric (-100999)) ≠ ("x", [c6entity]) := by
  refine ⟨?_, by decide, by decide⟩
  intro h
  obtain ⟨ch, mid, hm, he⟩ := isFullDeepLink_parse _ h
  have h1 : matchDeepLinkChars ("https://t.me/c/123/45/6".toList)
      = some ("123".toList, "45".toList) := by decide
  rw [h1] at hm
  simp only [Option.some.injEq, Prod.mk.injEq] at hm
  obtain ⟨rfl, rfl⟩ := hm
  exact absurd he (by decide)

/-- C6 (amended): for a handle destination the rewriter is the identity
on text and spans.  For a numeric destination the text is unchanged, the
span count and order are unchanged, and positionally: a span that is not
a `text_link`, has no truthy URL, or whose URL does not *begin with* the
deep-link shape passes through unchanged; a `text_link` span whose URL
begins with the shape (`prefix ++ ch ++ '/' ++ mid ++ rest`, digit runs
`ch`, `mid` maximal) is rebuilt with the same offset and length and with
URL exactly `https://t.me/c/<canonical id>/<mid>` — the second digit run
is preserved and any trailing remainder is dropped (for a URL that fully
matches the shape this preserves the message-numeric segment
unchanged). -/
theorem link_rewrite_amended (m : FwdMessage) (i : Int) (s : String) :
    processMessageLinks m (.handle s) = (msgText m, msgEntities m) ∧
    (processMessageLinks m (.numeric i)).1 = msgText m ∧
    (processMessageLinks m (.numeric i)).2.length = (msgEntities m).length ∧
    (∀ j (hj : j < (msgEntities m).length)
        (hj' : j < (processMessageLinks m (.numeric i)).2.length),
      (((msgEntities m).get ⟨j, hj⟩).etype ≠ "text_link" ∨
          strTruthy ((msgEntities m).get ⟨j, hj⟩).url = none ∨
          (∀ u, strTruthy ((msgEntities m).get ⟨j, hj⟩).url = some u →
            ¬ beginsWithDeepLink u) →
        (processMessageLinks m (.numeric i)).2.get ⟨j, hj'⟩
          = (msgEntities m).get ⟨j, hj⟩) ∧
      (∀ (u : String) (ch mid rest : List Char),
        ((msgEntities m).get ⟨j, hj⟩).etype = "text_link" →
        strTruthy ((msgEntities m).get ⟨j, hj⟩).url = some u →
        ch ≠ [] → mid ≠ [] →
        (∀ c ∈ ch, c.isDigit = true) → (∀ c ∈ mid, c.isDigit = true) →
        (∀ c cs', rest = c :: cs' → c.isDigit = false) →
        u.toList = deepLinkPrefix ++ ch ++ '/' :: (mid ++ rest) →
        (processMessageLinks m (.numeric i)).2.get ⟨j, hj'⟩
          = ⟨"text_link", ((msgEntities m).get ⟨j, hj⟩).offset,
              ((msgEntities m).get ⟨j, hj⟩).length,
              some ("https://t.me/c/" ++ canonicalChannelId i ++ "/"
                ++ mid.asString)⟩)) := by
  refine ⟨rfl, rfl, by simp [processMessageLinks], ?_⟩
  intro j hj hj'
  have hget : (processMessageLinks m (.numeric i)).2.get ⟨j, hj'⟩
      = rewriteEntity (canonicalChannelId i) ((msgEntities m).get ⟨j, hj⟩) := by
    simp [processMessageLinks]
  constructor
  · intro h
    rw [hget, rewriteEntity_of_not_match _ _ h]
  · intro u ch mid rest ht hu hch0 hmid0 hch hmid hrest hdecomp
    rw [hget, rewriteEntity_of_match (canonicalChannelId i) _ u ch mid rest
      ht hu hch0 hmid0 hch hmid hrest hdecomp, ht]

theorem link_rewrite_amended_witness :
    (processMessageLinks c6msg (.numeric (-100999))).2.get ⟨0, by decide⟩
      = ⟨"text_link", ((msgEntities c6msg).get ⟨0, by decide⟩).offset,
          ((msgEntities c6msg).get ⟨0, by decide⟩).length,
          some ("https://t.me/c/" ++ canonicalChannelId (-100999) ++ "/"
            ++ "45".toList.asString)⟩ :=
  ((link_rewrite_amended c6msg (-100999) "@h").2.2.2 0 (by decide)
      (by decide)).2
    "https://t.me/c/123/45/6" "123".toList "45".toList "/6".toList
    (by decide) (by decide) (by decide) (by decide) (by decide) (by decide)
    (by
      intro c cs' hcs
      have hc : ('/' : Char) :: ['6'] = c :: cs' := hcs
      injection hc with h1 h2
      rw [← h1]
      decide)
    (by decide)

/-- C9 counterexample message: a single message whose only entity is a
deep link into channel `123`. -/
def c9msg : FwdMessage :=
  ⟨7, some "watch", none, [⟨"text_link", 0, 5, some "https://t.me/c/123/45"⟩], []⟩

/-- C9 (counterexample): the fan-out build step stores the *original*
message in the enqueued task — its deep link still points at channel
`123`, not at the task's destination `-100999` (whose rewriting would
produce `https://t.me/c/999/45`).  So the payload stored at enqueue time
does not have destination-specific rewriting applied. -/
theorem link_rewrite_before_enqueue_counterexample :
    parseChannel "-100999" = some (.numeric (-100999)) ∧
    processSingleMessage ["-100999"] c9msg =
      some ([⟨"-100999", .singleMessage c9msg, "msg_7"⟩], "msg_7",
        ⟨7, 1, 0, "single"⟩) ∧
    (msgEntities c9msg).map MsgEntity.url = [some "https://t.me/c/123/45"] ∧
    ((processMessageLinks c9msg (.numeric (-100999))).2).map MsgEntity.url
      = [some "https://t.me/c/999/45"] :=
  ⟨by decide, by decide, by decide, by decide⟩

/-- C9 (amended): link rewriting is deferred to execution time: every
task built by `_process_single_message` stores the original message
unmodified, and it is the queue worker's direct send
(`_send_text_message_direct`) that applies `_process_message_links` to
the payload for the task's destination when the task executes. -/
theorem link_rewrite_at_execution_amended (targetChannels : List String)
    (m : FwdMessage) (h : targetChannels ≠ []) :
    (∃ tasks gid nt,
      processSingleMessage targetChannels m = some (tasks, gid, nt) ∧
      tasks.length = targetChannels.length ∧
      ∀ t ∈ tasks, t.payload = .singleMessage m) ∧
    (∀ chatId : ChatRef,
      sendTextMessageDirect m chatId =
        ⟨chatId, (processMessageLinks m chatId).1,
          (processMessageLinks m chatId).2, false⟩) := by
  constructor
  · refine ⟨targetChannels.map fun channel =>
        (⟨channel, .singleMessage m, "msg_" ++ toString m.messageId⟩ : QTask),
      "msg_" ++ toString m.messageId,
      ⟨m.messageId, targetChannels.length, 0, "single"⟩, ?_, ?_, ?_⟩
    · simp [processSingleMessage, h]
    · simp
    · intro t ht
      simp only [List.mem_map] at ht
      obtain ⟨c, _, rfl⟩ := ht
      rfl
  · intro chatId
    rfl

theorem link_rewrite_at_execution_amended_witness :
    sendTextMessageDirect c9msg (.numeric (-100999)) =
      ⟨.numeric (-100999), (processMessageLinks c9msg (.numeric (-100999))).1,
        (processMessageLinks c9msg (.numeric (-100999))).2, false⟩ :=
  (link_rewrite_at_execution_amended ["-100999"] c9msg (by decide)).2
    (.numeric (-100999))

/-! ## Association-list lemmas -/

theorem alLookup_alErase_self {α : Type} (qs : List (String × α)) (k : String) :
    alLookup (alErase qs k) k = none := by
  induction qs with
  | nil => rfl
  | cons p rest _ =>
    by_cases h : p.1 = k
    · simp_all [alErase, h]
    · simp_all [alErase, alLookup, h]

theorem alErase_alErase {α : Type} (qs : List (String × α)) (k : String) :
    alErase (alErase qs k) k = alErase qs k := by
  induction qs with
  | nil => rfl
  | cons p rest _ =>
    by_cases h : p.1 = k
    · simp_all [alErase, h]
    · simp_all [alErase, h]

theorem filter_ne_idem (l : List String) (k : String) :
    (l.filter fun x => ¬(x = k)).filter (fun x => ¬(x = k))
      = l.filter fun x => ¬(x = k) := by
  induction l with
  | nil => rfl
  | cons x rest _ =>
    by_cases h : x = k
    · simp_all [h]
    · simp_all [h]

theorem mem_filter_ne_self (l : List String) (k : String) :
    k ∉ l.filter fun x => ¬(x = k) := by
  intro h
  have := (List.mem_filter.1 h).2
  simp at this

/-! ## C1 — fan-out task builder -/

/-- C1: with an empty destination set both build steps create nothing
(no tasks, no tracker — the failure is the logged early return, modelled
as `none`).  With a non-empty destination set, `_process_single_message`
produces exactly `|D|` tasks and one tracker with `total = |D|`,
`completed = 0`, every task referencing the tracker's group id; the
media-group builder does the same provided some fragment carries text
(which holds at every call site, guarded by the text-message search). -/
theorem fanout_build_task_and_tracker_counts
    (targetChannels : List String) (m : FwdMessage) (ms : List FwdMessage)
    (hne : targetChannels ≠ []) (hms : ms ≠ [])
    (htext : ∃ x ∈ ms, hasText x = true) :
    processSingleMessage [] m = none ∧
    processMediaGroupMessages [] ms = none ∧
    (∃ tasks gid nt,
      processSingleMessage targetChannels m = some (tasks, gid, nt) ∧
      tasks.length = targetChannels.length ∧
      nt.totalChannels = targetChannels.length ∧ nt.completedChannels = 0 ∧
      ∀ t ∈ tasks, t.taskGroupId = gid) ∧
    (∃ tasks gid nt,
      processMediaGroupMessages targetChannels ms
          = some (tasks, some (gid, nt)) ∧
      tasks.length = targetChannels.length ∧
      nt.totalChannels = targetChannels.length ∧ nt.completedChannels = 0 ∧
      ∀ t ∈ tasks, t.taskGroupId = gid) := by
  refine ⟨by simp [processSingleMessage], by simp [processMediaGroupMessages],
    ?_, ?_⟩
  · refine ⟨targetChannels.map fun channel =>
        (⟨channel, .singleMessage m, "msg_" ++ toString m.messageId⟩ : QTask),
      "msg_" ++ toString m.messageId,
      ⟨m.messageId, targetChannels.length, 0, "single"⟩, ?_, by simp, rfl, rfl,
      ?_⟩
    · simp [processSingleMessage, hne]
    · intro t ht
      simp only [List.mem_map] at ht
      obtain ⟨c, _, rfl⟩ := ht
      rfl
  · obtain ⟨m0, ms', rfl⟩ := List.exists_cons_of_ne_nil hms
    obtain ⟨x, hx, hxt⟩ := htext
    have hsome : ((m0 :: ms').find? hasText).isSome := by
      rw [List.find?_isSome]
      exact ⟨x, hx, hxt⟩
    obtain ⟨tm, htm⟩ := Option.isSome_iff_exists.1 hsome
    refine ⟨targetChannels.map fun channel =>
        (⟨channel, .mediaGroup (m0 :: ms'),
          "mediagroup_" ++ toString m0.messageId⟩ : QTask),
      "mediagroup_" ++ toString m0.messageId,
      ⟨tm.messageId, targetChannels.length, 0, "media_group"⟩, ?_, by simp,
      rfl, rfl, ?_⟩
    · rw [processMediaGroupMessages, if_neg hne]
      simp [htm]
    · intro t ht
      simp only [List.mem_map] at ht
      obtain ⟨c, _, rfl⟩ := ht
      rfl

theorem fanout_build_task_and_tracker_counts_witness :
    processSingleMessage [] ⟨7, some "w", none, [], []⟩ = none ∧
    processMediaGroupMessages [] [⟨7, some "w", none, [], []⟩] = none ∧
    (∃ tasks gid nt,
      processSingleMessage ["-100999", "@h"] ⟨7, some "w", none, [], []⟩
          = some (tasks, gid, nt) ∧
      tasks.length = (["-100999", "@h"] : List String).length ∧
      nt.totalChannels = (["-100999", "@h"] : List String).length ∧
      nt.completedChannels = 0 ∧ ∀ t ∈ tasks, t.taskGroupId = gid) ∧
    (∃ tasks gid nt,
      processMediaGroupMessages ["-100999", "@h"] [⟨7, some "w", none, [], []⟩]
          = some (tasks, some (gid, nt)) ∧
      tasks.length = (["-100999", "@h"] : List String).length ∧
      nt.totalChannels = (["-100999", "@h"] : List String).length ∧
      nt.completedChannels = 0 ∧ ∀ t ∈ tasks, t.taskGroupId = gid) :=
  fanout_build_task_and_tracker_counts ["-100999", "@h"]
    ⟨7, some "w", none, [], []⟩ [⟨7, some "w", none, [], []⟩]
    (by decide) (by decide) (by decide)

/-! ## C5 — completion tracker -/

theorem runSuccesses_nil (gid : String) (k : Nat) :
    runSuccesses gid k [] = ([], 0) := by
  induction k with
  | zero => rfl
  | succ k ih => simpa [runSuccesses, onTaskSuccess, alLookup] using ih

theorem runSuccesses_singleton (gid : String) (replyTo n : Nat) (mt : String) :
    ∀ (k c : Nat), c < n →
      (runSuccesses gid k [(gid, ⟨replyTo, n, c, mt⟩)]).2
          = (if n ≤ c + k then 1 else 0) ∧
      (c + k < n →
        (runSuccesses gid k [(gid, ⟨replyTo, n, c, mt⟩)]).1
          = [(gid, ⟨replyTo, n, c + k, mt⟩)]) ∧
      (n ≤ c + k →
        (runSuccesses gid k [(gid, ⟨replyTo, n, c, mt⟩)]).1 = []) := by
  intro k
  induction k with
  | zero =>
    intro c hc
    refine ⟨?_, fun _ => rfl, fun h => by omega⟩
    show (0 : Nat) = if n ≤ c + 0 then 1 else 0
    rw [if_neg (by omega)]
  | succ k ih =>
    intro c hc
    by_cases h : c + 1 ≥ n
    · have hstep : onTaskSuccess [(gid, ⟨replyTo, n, c, mt⟩)] gid = ([], 1) := by
        simp [onTaskSuccess, alLookup, alErase, h]
      refine ⟨?_, fun hlt => by omega, fun _ => ?_⟩
      · rw [if_pos (by omega : n ≤ c + (k + 1))]
        simp [runSuccesses, hstep, runSuccesses_nil]
      · simp [runSuccesses, hstep, runSuccesses_nil]
    · have hstep : onTaskSuccess [(gid, ⟨replyTo, n, c, mt⟩)] gid
          = ([(gid, ⟨replyTo, n, c + 1, mt⟩)], 0) := by
        simp [onTaskSuccess, alLookup, alSet, h]
      have hrec := ih (c + 1) (by omega)
      have hstate : (runSuccesses gid (k + 1) [(gid, ⟨replyTo, n, c, mt⟩)]).1
          = (runSuccesses gid k [(gid, ⟨replyTo, n, c + 1, mt⟩)]).1 := by
        simp [runSuccesses, hstep]
      have hcount : (runSuccesses gid (k + 1) [(gid, ⟨replyTo, n, c, mt⟩)]).2
          = (runSuccesses gid k [(gid, ⟨replyTo, n, c + 1, mt⟩)]).2 := by
        simp [runSuccesses, hstep]
      have he : c + 1 + k = c + (k + 1) := by omega
      refine ⟨?_, fun hlt => ?_, fun hge => ?_⟩
      · rw [hcount, hrec.1, he]
      · rw [hstate, hrec.2.1 (by omega), he]
      · rw [hstate]
        exact hrec.2.2 (by omega)

/-- C5: starting from a tracker with `total = n ≥ 1`, `completed = 0`,
`k` successful-task callbacks for its group id leave `completed = k`
while `k < n` (never exceeding `n`), send exactly one aggregated
confirmation as soon as `k` reaches `n` (and never a second one), remove
the tracker at that point, and any later callback is a no-op. -/
theorem completion_tracker_fires_exactly_once
    (gid : String) (replyTo n : Nat) (mt : String) (k : Nat) (hn : 1 ≤ n) :
    (runSuccesses gid k [(gid, ⟨replyTo, n, 0, mt⟩)]).2
        = (if n ≤ k then 1 else 0) ∧
    (k < n → (runSuccesses gid k [(gid, ⟨replyTo, n, 0, mt⟩)]).1
        = [(gid, ⟨replyTo, n, k, mt⟩)]) ∧
    (n ≤ k → (runSuccesses gid k [(gid, ⟨replyTo, n, 0, mt⟩)]).1 = []) ∧
    (n ≤ k → onTaskSuccess (runSuccesses gid k [(gid, ⟨replyTo, n, 0, mt⟩)]).1 gid
        = ((runSuccesses gid k [(gid, ⟨replyTo, n, 0, mt⟩)]).1, 0)) ∧
    (∀ nt', alLookup (runSuccesses gid k [(gid, ⟨replyTo, n, 0, mt⟩)]).1 gid
        = some nt' → nt'.completedChannels ≤ n) := by
  have h := runSuccesses_singleton gid replyTo n mt k 0 (by omega)
  simp only [Nat.zero_add] at h
  refine ⟨h.1, h.2.1, h.2.2, fun hk => ?_, fun nt' hnt' => ?_⟩
  · rw [h.2.2 hk]
    rfl
  · by_cases hk : k < n
    · rw [h.2.1 hk] at hnt'
      simp [alLookup] at hnt'
      subst hnt'
      show k ≤ n
      omega
    · rw [h.2.2 (by omega)] at hnt'
      simp [alLookup] at hnt'

theorem completion_tracker_fires_exactly_once_witness :
    (runSuccesses "g" 4 [("g", ⟨1, 3, 0, "single"⟩)]).2
        = (if 3 ≤ 4 then 1 else 0) :=
  (completion_tracker_fires_exactly_once "g" 1 3 "single" 4 (by decide)).1

/-! ## C3 — scheduler retry counter -/

theorem runScheduledJob_all_fail (k : Nat) :
    ∀ st : Int,
      (runScheduledJob 0 (List.replicate k false) ⟨"pending", 0, 3, st⟩).status
          = "pending" ∧
      (runScheduledJob 0 (List.replicate k false) ⟨"pending", 0, 3, st⟩).attempts
          = 0 := by
  induction k with
  | zero => intro st; exact ⟨rfl, rfl⟩
  | succ k ih =>
    intro st
    simpa [List.replicate_succ, runScheduledJob, executeTaskOnce] using ih 5

/-- C3: the spec's scenario (a fresh job, `max_attempts = 3`, execution
fails twice then succeeds) ends with status `completed` but recorded
`attempts = 1`, not 3: `update_task_status` is the only place the
attempt counter is incremented and it runs only on the terminal
`completed`/`failed` transitions — the reschedule path leaves `attempts`
untouched.  Consequently a job that fails on every execution keeps
`attempts = 0 < max_attempts` forever: it is rescheduled indefinitely
and never marked `failed`. -/
theorem scheduler_retry_scenario_attempt_count :
    (runScheduledJob 0 [false, false, true] (freshSchedTask 0)).status
        = "completed" ∧
    (runScheduledJob 0 [false, false, true] (freshSchedTask 0)).attempts = 1 ∧
    ¬ (runScheduledJob 0 [false, false, true] (freshSchedTask 0)).attempts
        = 3 ∧
    (∀ k : Nat,
      (runScheduledJob 0 (List.replicate k false) (freshSchedTask 0)).status
          = "pending" ∧
      (runScheduledJob 0 (List.replicate k false) (freshSchedTask 0)).attempts
          = 0) := by
  refine ⟨by decide, by decide, by decide, fun k => ?_⟩
  exact runScheduledJob_all_fail k 0

/-! ## C7 — media-group flush idempotence -/

/-- C7: running the delayed flush twice for the same group id emits the
group downstream at most once: whatever the first flush did, the second
finds the buffer gone, emits nothing, and leaves the state exactly as
the first left it (no side effects); and a flush that finds the group
already marked as being processed emits nothing. -/
theorem media_group_flush_idempotent (ct : FwdMessage → Bool)
    (s : MediaGroupState) (gid : String) :
    flushMediaGroup ct (flushMediaGroup ct s gid).1 gid
        = ((flushMediaGroup ct s gid).1, false) ∧
    ((if (flushMediaGroup ct s gid).2 then 1 else 0)
      + (if (flushMediaGroup ct (flushMediaGroup ct s gid).1 gid).2
          then 1 else 0) ≤ 1) ∧
    (gid ∈ s.processing → (flushMediaGroup ct s gid).2 = false) := by
  have hfst : flushMediaGroup ct (flushMediaGroup ct s gid).1 gid
      = ((flushMediaGroup ct s gid).1, false) := by
    show flushMediaGroup ct
        ⟨alErase s.buffer gid, s.timers.filter fun x => ¬(x = gid),
          s.processing.filter fun x => ¬(x = gid)⟩ gid = _
    rw [flushMediaGroup]
    rw [alLookup_alErase_self]
    simp only
    rw [flushMediaGroup]
    congr 2
    · exact alErase_alErase s.buffer gid
    · exact filter_ne_idem s.timers gid
    · exact filter_ne_idem s.processing gid
  refine ⟨hfst, ?_, ?_⟩
  · rw [hfst]
    by_cases h : (flushMediaGroup ct s gid).2 <;> simp [h]
  · intro hmem
    rw [flushMediaGroup]
    rcases hb : alLookup s.buffer gid with _ | msgs
    · rfl
    · simp [hmem]

theorem media_group_flush_idempotent_witness :
    (flushMediaGroup (fun _ => true)
        ⟨[("g", [⟨1, some "x", none, [], []⟩])], ["g"], ["g"]⟩ "g").2
      = false :=
  (media_group_flush_idempotent (fun _ => true)
      ⟨[("g", [⟨1, some "x", none, [], []⟩])], ["g"], ["g"]⟩ "g").2.2
    (by decide)

/-! ## C4 — dispatch queue FIFO lemmas -/

theorem alLookup_cons {α : Type} (p : String × α) (rest : List (String × α))
    (k : String) :
    alLookup (p :: rest) k = if p.1 = k then some p.2 else alLookup rest k := by
  by_cases h : p.1 = k <;> simp [alLookup, List.find?_cons, h]

theorem alSet_cons {α : Type} (p : String × α) (rest : List (String × α))
    (k : String) (v : α) :
    alSet (p :: rest) k v
      = if p.1 = k then (p.1, v) :: rest else p :: alSet rest k v := by
  by_cases h : p.1 = k <;> simp [alSet, h]

theorem alErase_cons {α : Type} (p : String × α) (rest : List (String × α))
    (k : String) :
    alErase (p :: rest) k
      = if p.1 = k then alErase rest k else p :: alErase rest k := by
  by_cases h : p.1 = k <;> simp [alErase, List.filter_cons, h]

theorem alLookup_alSet_self {α : Type} (qs : List (String × α)) (k : String)
    (v : α) : alLookup (alSet qs k v) k = some v := by
  induction qs with
  | nil =>
    rw [show alSet ([] : List (String × α)) k v = [(k, v)] from rfl,
      alLookup_cons, if_pos rfl]
  | cons p rest ih =>
    rw [alSet_cons]
    by_cases h : p.1 = k
    · rw [if_pos h]
      simp [alLookup_cons, h]
    · rw [if_neg h, alLookup_cons, if_neg h, ih]

theorem alLookup_alSet_ne {α : Type} (qs : List (String × α)) (k k' : String)
    (v : α) (h : ¬(k' = k)) : alLookup (alSet qs k v) k' = alLookup qs k' := by
  have h' : ¬(k = k') := fun he => h he.symm
  induction qs with
  | nil =>
    rw [show alSet ([] : List (String × α)) k v = [(k, v)] from rfl,
      alLookup_cons]
    simp [h']
  | cons p rest ih =>
    rw [alSet_cons]
    by_cases hp : p.1 = k
    · have hp' : ¬(p.1 = k') := fun he => h' (hp.symm.trans he)
      rw [if_pos hp]
      simp [alLookup_cons, hp']
    · rw [if_neg hp, alLookup_cons, alLookup_cons, ih]

theorem alLookup_alErase_ne {α : Type} (qs : List (String × α)) (k k' : String)
    (h : ¬(k' = k)) : alLookup (alErase qs k) k' = alLookup qs k' := by
  induction qs with
  | nil => rfl
  | cons p rest ih =>
    rw [alErase_cons]
    by_cases hp : p.1 = k
    · have hp' : ¬(p.1 = k') := fun he => h (he.symm.trans hp)
      rw [if_pos hp, ih, alLookup_cons, if_neg hp']
    · rw [if_neg hp, alLookup_cons, alLookup_cons, ih]

theorem pendingFor_addTask_self (s : DispatchState) (c : String) (t : QTask) :
    pendingFor c (addTaskToChannelQueue s c t) = pendingFor c s ++ [t] := by
  simp [pendingFor, addTaskToChannelQueue, alLookup_alSet_self]

theorem pendingFor_addTask_ne (s : DispatchState) (c0 c : String) (t : QTask)
    (h : ¬(c = c0)) :
    pendingFor c (addTaskToChannelQueue s c0 t) = pendingFor c s := by
  simp [pendingFor, addTaskToChannelQueue, alLookup_alSet_ne _ _ _ _ h]

theorem popCurrent_spec (qs : List (String × List QTask)) (cur : String) :
    ((popCurrent qs cur).2 = none ∧
      ∀ c, pendingFor c (popCurrent qs cur).1 = (alLookup qs c).getD []) ∨
    (∃ t, (popCurrent qs cur).2 = some (cur, t) ∧
      (alLookup qs cur).getD []
          = t :: pendingFor cur (popCurrent qs cur).1 ∧
      ∀ c, ¬(c = cur) →
        pendingFor c (popCurrent qs cur).1 = (alLookup qs c).getD []) := by
  have herase : ∀ c, pendingFor c (⟨alErase qs cur, none⟩ : DispatchState)
      = pendingFor c (⟨alErase qs cur, some cur⟩ : DispatchState) := by
    intro c; simp [pendingFor]
  rcases hl : alLookup qs cur with _ | ⟨_ | ⟨t, ts⟩⟩
  · left
    rcases he : alErase qs cur with _ | ⟨⟨k', v'⟩, rest'⟩ <;>
      refine ⟨by simp [popCurrent, hl, he], fun c => ?_⟩ <;>
      by_cases hc : c = cur
    · subst hc
      simp [popCurrent, hl, he, pendingFor]
      have := alLookup_alErase_self qs c
      rw [he] at this
      simp [this]
    · simp [popCurrent, hl, he, pendingFor, ← alLookup_alErase_ne qs cur c hc,
        he]
    · subst hc
      simp [popCurrent, hl, he, pendingFor]
      have := alLookup_alErase_self qs c
      rw [he] at this
      simp [this, hl]
    · simp [popCurrent, hl, he, pendingFor, ← alLookup_alErase_ne qs cur c hc,
        he]
  · left
    rcases he : alErase qs cur with _ | ⟨⟨k', v'⟩, rest'⟩ <;>
      refine ⟨by simp [popCurrent, hl, he], fun c => ?_⟩ <;>
      by_cases hc : c = cur
    · subst hc
      simp [popCurrent, hl, he, pendingFor]
      have := alLookup_alErase_self qs c
      rw [he] at this
      simp [this, hl]
    · simp [popCurrent, hl, he, pendingFor, ← alLookup_alErase_ne qs cur c hc,
        he]
    · subst hc
      simp [popCurrent, hl, he, pendingFor]
      have := alLookup_alErase_self qs c
      rw [he] at this
      simp [this, hl]
    · simp [popCurrent, hl, he, pendingFor, ← alLookup_alErase_ne qs cur c hc,
        he]
  · right
    refine ⟨t, by simp [popCurrent, hl], ?_, fun c hc => ?_⟩
    · simp [popCurrent, hl, pendingFor, alLookup_alSet_self]
    · simp [popCurrent, hl, pendingFor, alLookup_alSet_ne _ _ _ _ hc]

theorem queueWorkerStep_spec (s : DispatchState) :
    ((queueWorkerStep s).2 = none ∧
      ∀ c, pendingFor c (queueWorkerStep s).1 = pendingFor c s) ∨
    (∃ ch t, (queueWorkerStep s).2 = some (ch, t) ∧
      pendingFor ch s = t :: pendingFor ch (queueWorkerStep s).1 ∧
      ∀ c, ¬(c = ch) →
        pendingFor c (queueWorkerStep s).1 = pendingFor c s) := by
  rcases hq : s.channelQueues with _ | ⟨⟨k0, v0⟩, rest⟩
  · left
    constructor
    · simp [queueWorkerStep, hq]
    · intro c
      simp [queueWorkerStep, hq]
  · have hstep : queueWorkerStep s = popCurrent s.channelQueues
        (match s.currentChannel with
         | none => k0
         | some c => if alMem s.channelQueues c then c else k0) := by
      rw [queueWorkerStep.eq_def, hq]
    rcases popCurrent_spec s.channelQueues
        (match s.currentChannel with
         | none => k0
         | some c => if alMem s.channelQueues c then c else k0) with
      ⟨h1, h2⟩ | ⟨t, h1, h2, h3⟩
    · left
      rw [hstep]
      exact ⟨h1, h2⟩
    · right
      refine ⟨(match s.currentChannel with
         | none => k0
         | some c => if alMem s.channelQueues c then c else k0), t,
        ?_, ?_, ?_⟩
      · rw [hstep]; exact h1
      · rw [hstep]; exact h2
      · rw [hstep]; exact h3

theorem executedFor_cons (c ch : String) (t : QTask)
    (ex : List (String × QTask)) :
    executedFor c ((ch, t) :: ex)
      = if ch = c then t :: executedFor c ex else executedFor c ex := by
  by_cases h : ch = c <;> simp [executedFor, h]

theorem enqueuedFor_cons_enq (c c0 : String) (t : QTask) (es : List QEvent) :
    enqueuedFor c (.enq c0 t :: es)
      = if c0 = c then t :: enqueuedFor c es else enqueuedFor c es := by
  by_cases h : c0 = c <;> simp [enqueuedFor, h]

theorem runQueueEvents_spec (es : List QEvent) :
    ∀ (s : DispatchState) (c : String),
      executedFor c (runQueueEvents s es).2
          ++ pendingFor c (runQueueEvents s es).1
        = pendingFor c s ++ enqueuedFor c es := by
  induction es with
  | nil =>
    intro s c
    simp [runQueueEvents, executedFor, enqueuedFor]
  | cons e es ih =>
    intro s c
    cases e with
    | enq c0 t =>
      have hrun : runQueueEvents s (.enq c0 t :: es)
          = runQueueEvents (addTaskToChannelQueue s c0 t) es := rfl
      rw [hrun, ih (addTaskToChannelQueue s c0 t) c, enqueuedFor_cons_enq]
      by_cases hc : c0 = c
      · subst hc
        rw [if_pos rfl, pendingFor_addTask_self]
        simp
      · rw [if_neg hc,
          pendingFor_addTask_ne s c0 c t (fun he => hc he.symm)]
    | work =>
      rcases queueWorkerStep_spec s with ⟨h1, h2⟩ | ⟨ch, t, h1, h2, h3⟩
      · have hrun : runQueueEvents s (.work :: es)
            = runQueueEvents (queueWorkerStep s).1 es := by
          simp [runQueueEvents, h1]
        rw [hrun, ih (queueWorkerStep s).1 c, h2 c]
        simp [enqueuedFor]
      · have hrun : runQueueEvents s (.work :: es)
            = ((runQueueEvents (queueWorkerStep s).1 es).1,
               (ch, t) :: (runQueueEvents (queueWorkerStep s).1 es).2) := by
          simp [runQueueEvents, h1]
        rw [hrun]
        simp only [executedFor_cons]
        by_cases hc : ch = c
        · subst hc
          rw [if_pos rfl, List.cons_append, ih (queueWorkerStep s).1 ch, h2]
          simp [enqueuedFor]
        · rw [if_neg hc, ih (queueWorkerStep s).1 c,
            h3 c (fun he => hc he.symm)]
          simp [enqueuedFor]

/-- C4: tasks for a destination execute strictly in enqueue order.  For
every interleaving of enqueues and worker iterations run from the empty
dispatch state, and every destination `c`: the sequence of tasks the
worker executed from `c`'s queue followed by the tasks still pending for
`c` is exactly the sequence enqueued to `c`, in order — in particular
the executed sequence is a prefix of the enqueue sequence, so no
operation ever reorders a destination's queue. -/
theorem dispatch_queue_fifo_per_destination (es : List QEvent) (c : String) :
    executedFor c (runQueueEvents ⟨[], none⟩ es).2
        ++ pendingFor c (runQueueEvents ⟨[], none⟩ es).1
      = enqueuedFor c es ∧
    List.IsPrefix (executedFor c (runQueueEvents ⟨[], none⟩ es).2)
      (enqueuedFor c es) := by
  have h := runQueueEvents_spec es ⟨[], none⟩ c
  have h0 : pendingFor c (⟨[], none⟩ : DispatchState) = [] := rfl
  rw [h0, List.nil_append] at h
  exact ⟨h, ⟨pendingFor c (runQueueEvents ⟨[], none⟩ es).1, h⟩⟩

end LinkReplacer
